import Mathlib

/-!
Shallow embedding of `nodes.py` (ComfyUI Spectrum Notch Filter).

Images are modelled as total functions from pixel coordinates to rational
sample values; the actual numpy arrays of shape (H, W) resp. (H, W, C) are the
restrictions of these functions to in-bounds indices, so every theorem that
depends on array extent carries explicit bounds.  Floating-point samples are
modelled as rationals, the usual convention for shallow embeddings of
image-processing code whose claims are structural.
-/

namespace NotchFilter

/-- A 2-D single-channel image: row, column to sample. -/
abbrev Img : Type := ℕ → ℕ → ℚ

/-- A 3-D multi-channel image: row, column, channel to sample. -/
abbrev Img3 : Type := ℕ → ℕ → ℕ → ℚ

/-- Abstract model of `scipy.ndimage.gaussian_filter` on an (H, W) array:
given the array extent, the sigma and the input image it returns the blurred
image.  The repository only calls it as an opaque library routine, so the
development is parametric in it; every theorem quantifies over `gf`. -/
abbrev GF : Type := ℕ → ℕ → ℕ → Img → Img

/-- `_to_gray` (nodes.py line 21): BT.601 luminance when the frame has at
least 3 channels, otherwise the sole channel verbatim. -/
def to_gray (C : ℕ) (frame : Img3) : Img :=
  if 3 ≤ C then
    fun i j => 299/1000 * frame i j 0 + 587/1000 * frame i j 1 + 114/1000 * frame i j 2
  else
    fun i j => frame i j 0

/-- `np.clip(x, 0.0, 1.0)` on one sample. -/
def clip01 (q : ℚ) : ℚ := max 0 (min 1 q)

/-- Maximum of `f 0, f 1, ..., f n`. -/
def maxTo (f : ℕ → ℚ) : ℕ → ℚ
  | 0 => f 0
  | n + 1 => max (maxTo f n) (f (n + 1))

/-- `gray.max()` (nodes.py line 195): global maximum of an (H, W) array,
meaningful for `1 ≤ H` and `1 ≤ W`. -/
def grayMax (g : Img) (H W : ℕ) : ℚ :=
  maxTo (fun i => maxTo (g i) (W - 1)) (H - 1)

/-- Half-width of the square window `size=max(3, min_distance * 2 + 1)`
passed to `maximum_filter` (nodes.py line 194); the size is always odd. -/
def windowHalf (d : ℕ) : ℕ := (max 3 (d * 2 + 1) - 1) / 2

/-- `scipy.ndimage.maximum_filter(gray, size=2*h+1)` at pixel (i, j):
the maximum over the square window of half-width `h` centered at (i, j),
clipped to the array bounds.  (scipy's default boundary mode `reflect` only
replicates samples that already lie inside the clipped window, so for the
maximum the reflected window and the clipped window agree.) -/
def maximum_filter (g : Img) (H W h : ℕ) (i j : ℕ) : ℚ :=
  maxTo (fun a => maxTo (fun b => g (i - h + a) (j - h + b))
      (min (W - 1) (j + h) - (j - h)))
    (min (H - 1) (i + h) - (i - h))

/-- Squared euclidean distance `(X - c)**2 + (Y - r)**2` from pixel (i, j)
to a center at row `r`, column `c` (nodes.py lines 35, 72, 201, 314). -/
def pixDist2 (r c : ℤ) (i j : ℕ) : ℤ := ((j : ℤ) - c) ^ 2 + ((i : ℤ) - r) ^ 2

/-- Squared distance to the frame center `(H//2, W//2)` (nodes.py line 198). -/
def dcDist2 (H W : ℕ) (i j : ℕ) : ℤ := pixDist2 ((H / 2 : ℕ) : ℤ) ((W / 2 : ℕ) : ℤ) i j

/-- `local_max = (gray == nbhd) & (gray >= threshold_rel * gray.max())`
(nodes.py line 195). -/
def local_max (g : Img) (H W : ℕ) (t : ℚ) (d : ℕ) (i j : ℕ) : Bool :=
  decide (g i j = maximum_filter g H W (windowHalf d) i j) &&
  decide (t * grayMax g H W ≤ g i j)

/-- The boolean peak array after DC-protection masking (nodes.py lines
200-201): inside the protection disk `local_max` is forced to `False`
whenever `protect_dc > 0`. -/
def peakMask (g : Img) (H W : ℕ) (t : ℚ) (d p : ℕ) (i j : ℕ) : Bool :=
  if 0 < p then
    local_max g H W t d i j && !(decide (dcDist2 H W i j ≤ (p : ℤ) ^ 2))
  else
    local_max g H W t d i j

/-- `np.argwhere(local_max).tolist()` (nodes.py line 203): the `[row, col]`
pairs of `True` entries in row-major (raster) order. -/
def detect_peaks (g : Img) (H W : ℕ) (t : ℚ) (d p : ℕ) : List (ℕ × ℕ) :=
  (List.range H).flatMap fun i =>
    ((List.range W).filter fun j => peakMask g H W t d p i j).map fun j => (i, j)

/-- One iteration of the mask-painting loop: `mask[circle] = 1.0` for the
circle of the given radius centered at row `r`, column `c`
(nodes.py lines 34-36 and 313-315). -/
def paintCircle (m : Img) (r c rad : ℤ) : Img :=
  fun i j => if pixDist2 r c i j ≤ rad ^ 2 then 1 else m i j

/-- `_build_circular_mask` (nodes.py line 29): paint each peak's inclusive
disk with 1.0 over an all-zero mask; when `feather > 0`, gaussian-blur the
result and clip it to [0, 1]. -/
def build_circular_mask (gf : GF) (H W : ℕ) (peaks : List (ℤ × ℤ)) (radius : ℤ)
    (feather : ℕ) : Img :=
  let mask : Img := peaks.foldl (fun m pk => paintCircle m pk.1 pk.2 radius) (fun _ _ => 0)
  if 0 < feather then fun i j => clip01 (gf H W feather mask i j) else mask

/-- Inclusive-outer, exclusive-inner ring membership `outer & ~inner`
(nodes.py lines 72-74 and 83-85). -/
def inRingB (r c outer2 inner2 : ℤ) (i j : ℕ) : Bool :=
  decide (pixDist2 r c i j ≤ outer2) && !(decide (pixDist2 r c i j ≤ inner2))

/-- One iteration of the yellow peak-ring loop of `_annotate_preview`
(nodes.py lines 81-91): on the ring of outer radius `radius+2` and inner
radius `max(0, radius-1)` the first three channels become (1.0, 0.9, 0.0)
when the frame has at least 3 channels, and the sole channel becomes 1.0
otherwise. -/
def paintPeakRing (C : ℕ) (radius : ℕ) (prev : Img3) (pk : ℕ × ℕ) : Img3 :=
  fun i j ch =>
    if inRingB (pk.1 : ℤ) (pk.2 : ℤ) (((radius : ℤ) + 2) ^ 2) (((radius - 1 : ℕ) : ℤ) ^ 2) i j then
      if 3 ≤ C then
        if ch = 0 then 1 else if ch = 1 then 9/10 else if ch = 2 then 0 else prev i j ch
      else
        if ch = 0 then 1 else prev i j ch
    else prev i j ch

/-- `_annotate_preview` (nodes.py line 63): clip the frame to [0, 1], tint
the DC-protection ring light blue (0.2, 0.5, 1.0) when `dc_r > 0` and the
frame has at least 3 channels, then draw a yellow ring around each peak. -/
def annotate_preview (frame : Img3) (C : ℕ) (peaks : List (ℕ × ℕ)) (radius : ℕ)
    (dc_r : ℕ) (H W : ℕ) : Img3 :=
  let base : Img3 := fun i j ch => clip01 (frame i j ch)
  let withDC : Img3 :=
    if 0 < dc_r ∧ 3 ≤ C then
      fun i j ch =>
        if inRingB ((H / 2 : ℕ) : ℤ) ((W / 2 : ℕ) : ℤ)
            (((dc_r : ℤ) + 1) ^ 2) (((dc_r - 1 : ℕ) : ℤ) ^ 2) i j then
          if ch = 0 then 1/5 else if ch = 1 then 1/2 else if ch = 2 then 1 else base i j ch
        else base i j ch
    else base
  peaks.foldl (paintPeakRing C radius) withDC

/-- One sample of `(np.clip(frame, 0.0, 1.0) * 255).astype(np.uint8)`
(nodes.py line 45): numpy's cast to `uint8` truncates the float toward zero
(the clipped value is nonnegative, so truncation is the floor) and wraps
modulo 256. -/
def u8sample (v : ℚ) : ℕ := (⌊clip01 v * 255⌋).toNat % 256

/-- The pixel data of the PNG written by `_save_temp_image` (nodes.py line
43): each sample is 8-bit encoded; a single-channel frame is converted to
RGB by replicating the encoded channel (`Image ... mode="L" ... .convert("RGB")`),
otherwise the first three channels are used.  Defined for `C = 1` or `3 ≤ C`
(for `C = 2` PIL raises on line 49). -/
def save_temp_image (frame : Img3) (C : ℕ) : ℕ → ℕ → ℕ → ℕ :=
  if C = 1 then fun i j _ch => u8sample (frame i j 0)
  else fun i j ch => u8sample (frame i j ch)

/-- Modelled from the spec: the encoding the spec claims for the preview
export, "scale [0,1] floats to [0,255] via clip-then-round" — round half-up
of `clip(v,0,1) * 255`.  (At the contested value 127.5 numpy's
round-half-to-even agrees with round-half-up: both give 128.)  Kept only to
compare against the code's `u8sample`. -/
def specRoundSample (v : ℚ) : ℤ := ⌊clip01 v * 255 + 1/2⌋

/-- JSON values as handled by Python's `json.loads` / `json.dumps`:
objects (dicts), arrays (lists), numbers, strings, booleans, null. -/
inductive Json : Type where
  | null : Json
  | bool : Bool → Json
  | num : ℚ → Json
  | str : String → Json
  | arr : List Json → Json
  | obj : List (String × Json) → Json

/-- The peak list serialized on nodes.py lines 218-219 and handed to
`json.dumps` on line 225: one object per `[row, col]` peak, with `x` the
column, `y` the row and `r` the configured notch radius. -/
def serializePeaks (pks : List (ℕ × ℕ)) (rad : ℕ) : Json :=
  Json.arr (pks.map fun q =>
    Json.obj [("x", Json.num (q.2 : ℚ)), ("y", Json.num (q.1 : ℚ)), ("r", Json.num (rad : ℚ))])

/-- Python `dict.get(key, default)` on the association list of a parsed JSON
object; `json.loads` keeps the last occurrence of a duplicated key, hence the
reversed search. -/
def dictGet (l : List (String × Json)) (k : String) (dflt : Json) : Json :=
  match l.reverse.find? (fun kv => kv.1 == k) with
  | some kv => kv.2
  | none => dflt

/-- `p.get(key, default)` (nodes.py lines 308-309): succeeds only when `p`
is a dict; on any other value Python raises `AttributeError`, which the
node does not catch. -/
def pGet (p : Json) (k : String) (dflt : Json) : Except Unit Json :=
  match p with
  | Json.obj l => Except.ok (dictGet l k dflt)
  | _ => Except.error ()

/-- Truncation toward zero, the behaviour of Python `int()` on a float. -/
def ratTrunc (q : ℚ) : ℤ := if 0 ≤ q then ⌊q⌋ else ⌈q⌉

/-- Value of a nonempty all-digit character list, for `int()` on strings. -/
def digitsVal (l : List Char) : Except Unit ℕ :=
  if l ≠ [] ∧ l.all Char.isDigit then
    Except.ok (l.foldl (fun acc c => acc * 10 + (c.toNat - 48)) 0)
  else Except.error ()

/-- Python `int()` on a string: an optional sign followed by digits
(the common case; exotic forms such as underscores are not modelled). -/
def pyIntOfStr (s : String) : Except Unit ℤ :=
  match s.data with
  | '-' :: rest => (digitsVal rest).map fun n => -(n : ℤ)
  | '+' :: rest => (digitsVal rest).map fun n => (n : ℤ)
  | l => (digitsVal l).map fun n => (n : ℤ)

/-- Python `int(v)` on a parsed JSON value: truncates numbers, maps booleans
to 0/1, parses digit strings, and raises `TypeError` on null, arrays and
objects. -/
def pyInt (v : Json) : Except Unit ℤ :=
  match v with
  | Json.num q => Except.ok (ratTrunc q)
  | Json.bool b => Except.ok (if b then 1 else 0)
  | Json.str s => pyIntOfStr s
  | _ => Except.error ()

/-- Conversion of one point record (nodes.py lines 308-309):
`(int(p.get("y", 0)), int(p.get("x", 0)))` plus `int(p.get("r", 8))`.
Any failure is an uncaught Python exception. -/
def pointOfJson (p : Json) : Except Unit ((ℤ × ℤ) × ℤ) := do
  let y ← pGet p "y" (Json.num 0) >>= pyInt
  let x ← pGet p "x" (Json.num 0) >>= pyInt
  let r ← pGet p "r" (Json.num 8) >>= pyInt
  return ((y, x), r)

/-- The `try/except` parse of `notch_points` (nodes.py lines 287-292):
`none` models a `json.loads` failure; a parsed value that is not a list is
replaced by the empty list. -/
def parsePoints (parsed : Option Json) : List Json :=
  match parsed with
  | some (Json.arr l) => l
  | some _ => []
  | none => []

/-- The complete point-list conversion of the manual node: parse (with the
graceful fallback), then convert every element, propagating the first
uncaught exception. -/
def manualPoints (parsed : Option Json) : Except Unit (List ((ℤ × ℤ) × ℤ)) :=
  (parsePoints parsed).mapM pointOfJson

/-- The manual node's mask before feathering (nodes.py lines 312-320):
paint every point's disk with its own radius, then, when `protect_dc > 0`,
paint the DC disk at the frame center. -/
def manualPreMask (H W : ℕ) (pts : List ((ℤ × ℤ) × ℤ)) (p : ℕ) : Img :=
  let m0 : Img := pts.foldl (fun m q => paintCircle m q.1.1 q.1.2 q.2) (fun _ _ => 0)
  if 0 < p then
    fun i j => if dcDist2 H W i j ≤ (p : ℤ) ^ 2 then 1 else m0 i j
  else m0

/-- The manual node's mask after optional feathering
(nodes.py lines 322-324). -/
def manualMask (gf : GF) (H W : ℕ) (pts : List ((ℤ × ℤ) × ℤ)) (p fe : ℕ) : Img :=
  if 0 < fe then fun i j => clip01 (gf H W fe (manualPreMask H W pts p) i j)
  else manualPreMask H W pts p

/-- The tensors returned by `SpectrumNotchManualNode.apply_manual_notch`. -/
structure ManualOut : Type where
  filtered : ℕ → Img3
  mask_img : ℕ → Img3

/-- `SpectrumNotchManualNode.apply_manual_notch` (nodes.py line 285) on a
batch of frames, with the `json.loads` result passed in as `parsed`.
The point conversion happens inside the per-frame loop in the source but is
identical for every frame; an exception in it aborts the whole call (the
batch is nonempty, `B ≥ 1` — an empty batch would already fail in
`np.stack`). -/
def manualNode (gf : GF) (frames : ℕ → Img3) (H W : ℕ) (parsed : Option Json)
    (fe p : ℕ) : Except Unit ManualOut := do
  let pts ← manualPoints parsed
  Except.ok
    { filtered := fun b i j c => frames b i j c * (1 - manualMask gf H W pts p fe i j)
      mask_img := fun _b i j _c => manualMask gf H W pts p fe i j }

/-- The peaks of one frame of the automatic node (nodes.py lines 191-203). -/
def autoPeaks (frame : Img3) (H W C : ℕ) (t : ℚ) (d p : ℕ) : List (ℕ × ℕ) :=
  detect_peaks (to_gray C frame) H W t d p

/-- The mask of one frame of the automatic node (nodes.py line 206). -/
def autoMask (gf : GF) (frame : Img3) (H W C : ℕ) (t : ℚ) (d rad p fe : ℕ) : Img :=
  build_circular_mask gf H W
    ((autoPeaks frame H W C t d p).map fun q => ((q.1 : ℤ), (q.2 : ℤ))) (rad : ℤ) fe

/-- The four outputs of `SpectrumNotchAutoNode.apply_notch`. -/
structure AutoOut : Type where
  filtered : ℕ → Img3
  mask_img : ℕ → Img3
  preview : ℕ → Img3
  peak_positions : Json

/-- `SpectrumNotchAutoNode.apply_notch` (nodes.py line 179) on a batch of
`B ≥ 1` frames: per-frame detection, mask, filtering and preview; the
`peak_positions` JSON is serialized from the first frame only
(`if b == 0`, nodes.py line 218). -/
def autoNode (gf : GF) (frames : ℕ → Img3) (H W C : ℕ) (t : ℚ)
    (d rad p fe : ℕ) : AutoOut where
  filtered := fun b i j c => frames b i j c * (1 - autoMask gf (frames b) H W C t d rad p fe i j)
  mask_img := fun b i j _c => autoMask gf (frames b) H W C t d rad p fe i j
  preview := fun b => annotate_preview (frames b) C (autoPeaks (frames b) H W C t d p) rad p H W
  peak_positions := serializePeaks (autoPeaks (frames 0) H W C t d p) rad

/-! ### Helper lemmas: finite maxima -/

theorem le_maxTo (f : ℕ → ℚ) {k n : ℕ} (h : k ≤ n) : f k ≤ maxTo f n := by
  induction n with
  | zero =>
    have : k = 0 := Nat.le_zero.mp h
    subst this
    exact le_rfl
  | succ n ih =>
    rcases Nat.eq_or_lt_of_le h with h' | h'
    · subst h'
      exact le_max_right _ _
    · exact le_trans (ih (Nat.lt_succ_iff.mp h')) (le_max_left _ _)

theorem maxTo_le (f : ℕ → ℚ) {n : ℕ} {x : ℚ} (h : ∀ k, k ≤ n → f k ≤ x) :
    maxTo f n ≤ x := by
  induction n with
  | zero => exact h 0 le_rfl
  | succ n ih =>
    exact max_le (ih fun k hk => h k (Nat.le_succ_of_le hk)) (h (n + 1) le_rfl)

theorem maxTo_exists (f : ℕ → ℚ) (n : ℕ) : ∃ k, k ≤ n ∧ maxTo f n = f k := by
  induction n with
  | zero => exact ⟨0, le_rfl, rfl⟩
  | succ n ih =>
    rcases max_choice (maxTo f n) (f (n + 1)) with h | h
    · obtain ⟨k, hk, he⟩ := ih
      exact ⟨k, Nat.le_succ_of_le hk, by rw [maxTo, h, he]⟩
    · exact ⟨n + 1, le_rfl, by rw [maxTo, h]⟩

theorem le_grayMax (g : Img) {H W i j : ℕ} (hi : i < H) (hj : j < W) :
    g i j ≤ grayMax g H W := by
  have h1 : g i j ≤ maxTo (g i) (W - 1) := le_maxTo _ (Nat.le_sub_one_of_lt hj)
  have h2 : maxTo (g i) (W - 1) ≤ grayMax g H W :=
    le_maxTo (fun i => maxTo (g i) (W - 1)) (Nat.le_sub_one_of_lt hi)
  exact le_trans h1 h2

theorem grayMax_exists (g : Img) {H W : ℕ} (hH : 1 ≤ H) (hW : 1 ≤ W) :
    ∃ a b, a < H ∧ b < W ∧ grayMax g H W = g a b := by
  obtain ⟨a, ha, hea⟩ := maxTo_exists (fun i => maxTo (g i) (W - 1)) (H - 1)
  obtain ⟨b, hb, heb⟩ := maxTo_exists (g a) (W - 1)
  refine ⟨a, b, ?_, ?_, ?_⟩
  · exact Nat.lt_of_le_of_lt ha (Nat.sub_lt hH one_pos)
  · exact Nat.lt_of_le_of_lt hb (Nat.sub_lt hW one_pos)
  · rw [grayMax, hea, heb]

/-! ### Helper lemmas: the clipped square window -/

/-- Membership of index `i'` in the window of half-width `h` centered at `i`,
clipped to `[0, H)`. -/
def WinMem (H h i i' : ℕ) : Prop := i' < H ∧ i ≤ i' + h ∧ i' ≤ i + h

theorem winMem_self {H h i : ℕ} (hi : i < H) : WinMem H h i i :=
  ⟨hi, Nat.le_add_right _ _, Nat.le_add_right _ _⟩

theorem winMem_of_index {H h i : ℕ} (hi : i < H) {a : ℕ}
    (ha : a ≤ min (H - 1) (i + h) - (i - h)) : WinMem H h i (i - h + a) :=
  ⟨by omega, by omega, by omega⟩

theorem winMem_index {H h i i' : ℕ} (hw : WinMem H h i i') :
    ∃ a, a ≤ min (H - 1) (i + h) - (i - h) ∧ i - h + a = i' := by
  obtain ⟨hlt, hlow, hhigh⟩ := hw
  exact ⟨i' - (i - h), by omega, by omega⟩

theorem maximum_filter_le_iff (g : Img) {H W h i j : ℕ} (hi : i < H) (hj : j < W)
    (x : ℚ) :
    maximum_filter g H W h i j ≤ x ↔
      ∀ i' j', WinMem H h i i' → WinMem W h j j' → g i' j' ≤ x := by
  constructor
  · intro hle i' j' hwi hwj
    obtain ⟨a, ha, hea⟩ := winMem_index hwi
    obtain ⟨b, hb, heb⟩ := winMem_index hwj
    calc g i' j' = g (i - h + a) (j - h + b) := by rw [hea, heb]
    _ ≤ maxTo (fun b => g (i - h + a) (j - h + b)) (min (W - 1) (j + h) - (j - h)) :=
        le_maxTo _ hb
    _ ≤ maximum_filter g H W h i j :=
        le_maxTo (fun a => maxTo (fun b => g (i - h + a) (j - h + b)) _) ha
    _ ≤ x := hle
  · intro hall
    apply maxTo_le
    intro a ha
    apply maxTo_le
    intro b hb
    exact hall _ _ (winMem_of_index hi ha) (winMem_of_index hj hb)

theorem self_le_maximum_filter (g : Img) {H W h i j : ℕ} (hi : i < H) (hj : j < W) :
    g i j ≤ maximum_filter g H W h i j := by
  by_contra hcon
  push_neg at hcon
  exact absurd ((maximum_filter_le_iff g hi hj _).mp le_rfl i j
    (winMem_self hi) (winMem_self hj)) (not_le.mpr hcon)

theorem windowHalf_eq (d : ℕ) : windowHalf d = max 1 d := by
  rcases Nat.eq_zero_or_pos d with h | h
  · subst h
    rfl
  · rw [windowHalf, max_eq_right (by omega : 3 ≤ d * 2 + 1), max_eq_right h]
    omega

/-! ### Helper lemmas: peak-list membership -/

theorem mem_detect_peaks (g : Img) (H W : ℕ) (t : ℚ) (d p : ℕ) (i j : ℕ) :
    (i, j) ∈ detect_peaks g H W t d p ↔
      i < H ∧ j < W ∧ peakMask g H W t d p i j = true := by
  rw [detect_peaks, List.mem_flatMap]
  constructor
  · rintro ⟨i', hi', hm⟩
    obtain ⟨j', hj', he⟩ := List.mem_map.mp hm
    obtain ⟨he1, he2⟩ := Prod.mk.injEq .. ▸ he
    obtain ⟨hj'w, hj'p⟩ := List.mem_filter.mp hj'
    subst he1
    subst he2
    exact ⟨List.mem_range.mp hi', List.mem_range.mp hj'w, hj'p⟩
  · rintro ⟨hiH, hjW, hp⟩
    refine ⟨i, List.mem_range.mpr hiH, List.mem_map.mpr ⟨j, ?_, rfl⟩⟩
    exact List.mem_filter.mpr ⟨List.mem_range.mpr hjW, hp⟩

/-! ### Helper lemmas: the painting folds -/

theorem foldl_paintCircle_apply (pts : List ((ℤ × ℤ) × ℤ)) (m : Img) (i j : ℕ) :
    (pts.foldl (fun m q => paintCircle m q.1.1 q.1.2 q.2) m) i j =
      if ∃ q ∈ pts, pixDist2 q.1.1 q.1.2 i j ≤ q.2 ^ 2 then 1 else m i j := by
  induction pts generalizing m with
  | nil => simp
  | cons q rest ih =>
    rw [List.foldl_cons, ih]
    by_cases hq : pixDist2 q.1.1 q.1.2 i j ≤ q.2 ^ 2
    · by_cases hrest : ∃ r ∈ rest, pixDist2 r.1.1 r.1.2 i j ≤ r.2 ^ 2
      · rw [if_pos hrest, if_pos ⟨q, List.mem_cons_self q rest, hq⟩]
      · rw [if_neg hrest, if_pos ⟨q, List.mem_cons_self q rest, hq⟩, paintCircle,
          if_pos hq]
    · by_cases hrest : ∃ r ∈ rest, pixDist2 r.1.1 r.1.2 i j ≤ r.2 ^ 2
      · obtain ⟨r, hr, hrd⟩ := hrest
        rw [if_pos ⟨r, hr, hrd⟩, if_pos ⟨r, List.mem_cons_of_mem q hr, hrd⟩]
      · rw [if_neg hrest, paintCircle, if_neg hq, if_neg]
        rintro ⟨r, hr, hrd⟩
        rcases List.mem_cons.mp hr with he | hm
        · exact hq (he ▸ hrd)
        · exact hrest ⟨r, hm, hrd⟩

theorem foldl_paintCircle_fixed (pks : List (ℤ × ℤ)) (rad : ℤ) (m : Img) (i j : ℕ) :
    (pks.foldl (fun m pk => paintCircle m pk.1 pk.2 rad) m) i j =
      if ∃ pk ∈ pks, pixDist2 pk.1 pk.2 i j ≤ rad ^ 2 then 1 else m i j := by
  have h : pks.foldl (fun m pk => paintCircle m pk.1 pk.2 rad) m =
      (pks.map fun pk => (pk, rad)).foldl (fun m q => paintCircle m q.1.1 q.1.2 q.2) m := by
    rw [List.foldl_map]
  have hiff : (∃ q ∈ pks.map (fun pk => (pk, rad)), pixDist2 q.1.1 q.1.2 i j ≤ q.2 ^ 2) ↔
      ∃ pk ∈ pks, pixDist2 pk.1 pk.2 i j ≤ rad ^ 2 := by
    constructor
    · rintro ⟨q, hq, hd⟩
      obtain ⟨pk, hpk, he⟩ := List.mem_map.mp hq
      exact ⟨pk, hpk, by rw [← he] at hd; exact hd⟩
    · rintro ⟨pk, hpk, hd⟩
      exact ⟨(pk, rad), List.mem_map.mpr ⟨pk, hpk, rfl⟩, hd⟩
  rw [h, foldl_paintCircle_apply]
  simp only [hiff]

theorem clip01_mem (q : ℚ) : 0 ≤ clip01 q ∧ clip01 q ≤ 1 :=
  ⟨le_max_left 0 _, max_le zero_le_one (min_le_left 1 q)⟩

/-! ### Helper lemmas: serialization round-trip -/

theorem ratTrunc_natCast (n : ℕ) : ratTrunc (n : ℚ) = (n : ℤ) := by
  rw [ratTrunc, if_pos (by positivity)]
  exact_mod_cast Int.floor_natCast n

theorem pointOfJson_serialized (y x rad : ℕ) :
    pointOfJson (Json.obj [("x", Json.num (x : ℚ)), ("y", Json.num (y : ℚ)),
      ("r", Json.num (rad : ℚ))]) = Except.ok (((y : ℤ), (x : ℤ)), (rad : ℤ)) := by
  show (do
    let yv ← pGet _ "y" (Json.num 0) >>= pyInt
    let xv ← pGet _ "x" (Json.num 0) >>= pyInt
    let rv ← pGet _ "r" (Json.num 8) >>= pyInt
    return ((yv, xv), rv) : Except Unit ((ℤ × ℤ) × ℤ)) = _
  have hy : pGet (Json.obj [("x", Json.num (x : ℚ)), ("y", Json.num (y : ℚ)),
      ("r", Json.num (rad : ℚ))]) "y" (Json.num 0) = Except.ok (Json.num (y : ℚ)) := rfl
  have hx : pGet (Json.obj [("x", Json.num (x : ℚ)), ("y", Json.num (y : ℚ)),
      ("r", Json.num (rad : ℚ))]) "x" (Json.num 0) = Except.ok (Json.num (x : ℚ)) := rfl
  have hr : pGet (Json.obj [("x", Json.num (x : ℚ)), ("y", Json.num (y : ℚ)),
      ("r", Json.num (rad : ℚ))]) "r" (Json.num 8) = Except.ok (Json.num (rad : ℚ)) := rfl
  rw [hy, hx, hr]
  show (do
    let yv ← pyInt (Json.num (y : ℚ))
    let xv ← pyInt (Json.num (x : ℚ))
    let rv ← pyInt (Json.num (rad : ℚ))
    return ((yv, xv), rv) : Except Unit ((ℤ × ℤ) × ℤ)) = _
  rw [pyInt, pyInt, pyInt, ratTrunc_natCast, ratTrunc_natCast, ratTrunc_natCast]
  rfl

theorem manualPoints_serialized (pks : List (ℕ × ℕ)) (rad : ℕ) :
    manualPoints (some (serializePeaks pks rad)) =
      Except.ok (pks.map fun q => (((q.1 : ℤ), (q.2 : ℤ)), (rad : ℤ))) := by
  rw [manualPoints, serializePeaks, parsePoints]
  induction pks with
  | nil => rfl
  | cons q rest ih =>
    rw [List.map_cons, List.mapM_cons, pointOfJson_serialized, List.map_cons, ih]
    rfl

/-! ### Helper lemmas: preview rings -/

theorem foldl_paintPeakRing_clear (C radius : ℕ) (peaks : List (ℕ × ℕ)) (m : Img3)
    {i j : ℕ}
    (hclear : ∀ pk ∈ peaks,
      inRingB (pk.1 : ℤ) (pk.2 : ℤ) (((radius : ℤ) + 2) ^ 2)
        (((radius - 1 : ℕ) : ℤ) ^ 2) i j = false)
    (ch : ℕ) :
    (peaks.foldl (paintPeakRing C radius) m) i j ch = m i j ch := by
  induction peaks generalizing m with
  | nil => rfl
  | cons pk rest ih =>
    rw [List.foldl_cons, ih _ fun q hq => hclear q (List.mem_cons_of_mem pk hq)]
    rw [paintPeakRing, hclear pk (List.mem_cons_self pk rest)]
    simp

/-! ### Helper lemmas: 8-bit encoding -/

theorem u8sample_eq_floor (v : ℚ) :
    u8sample v = (⌊clip01 v * 255⌋).toNat ∧ u8sample v ≤ 255 := by
  obtain ⟨h0, h1⟩ := clip01_mem v
  have hfl0 : (0 : ℤ) ≤ ⌊clip01 v * 255⌋ := Int.floor_nonneg.mpr (by positivity)
  have hfl255 : ⌊clip01 v * 255⌋ ≤ 255 := by
    have : clip01 v * 255 ≤ 255 := by nlinarith
    calc ⌊clip01 v * 255⌋ ≤ ⌊(255 : ℚ)⌋ := Int.floor_le_floor this
    _ = 255 := by norm_num
  have htn : (⌊clip01 v * 255⌋).toNat ≤ 255 := by omega
  constructor
  · rw [u8sample, Nat.mod_eq_of_lt (by omega)]
  · rw [u8sample, Nat.mod_eq_of_lt (by omega)]
    exact htn

/-! ### Claim theorems -/

/-- C1: in both the automatic and the manual node, every output filtered
frame equals the input frame multiplied element-wise by `1 - mask`, with the
same 2-D mask applied to every channel (the channel index does not enter the
mask). -/
theorem filtered_eq_frame_mul_one_sub_mask
    (gf : GF) (frames : ℕ → Img3) (H W C : ℕ) (t : ℚ) (d rad p fe : ℕ)
    (parsed : Option Json) (fe2 p2 : ℕ) (pts : List ((ℤ × ℤ) × ℤ))
    (b i j c : ℕ)
    (hpts : manualPoints parsed = Except.ok pts) :
    (autoNode gf frames H W C t d rad p fe).filtered b i j c
        = frames b i j c * (1 - autoMask gf (frames b) H W C t d rad p fe i j)
    ∧ manualNode gf frames H W parsed fe2 p2 = Except.ok
        { filtered := fun b i j c => frames b i j c * (1 - manualMask gf H W pts p2 fe2 i j)
          mask_img := fun _b i j _c => manualMask gf H W pts p2 fe2 i j } := by
  refine ⟨rfl, ?_⟩
  rw [manualNode, hpts]
  rfl

theorem filtered_eq_frame_mul_one_sub_mask_witness :
    manualPoints (some (Json.arr [])) = Except.ok [] ∧
    ((autoNode (fun _ _ _ m => m) (fun _ _ _ _ => 1/2) 2 2 1 (1/2) 1 1 0 0).filtered 0 0 0 0
        = (1/2 : ℚ) * (1 - autoMask (fun _ _ _ m => m) (fun _ _ _ => 1/2) 2 2 1 (1/2) 1 1 0 0 0 0)
      ∧ manualNode (fun _ _ _ m => m) (fun _ _ _ _ => 1/2) 2 2 (some (Json.arr [])) 0 0
          = Except.ok
          { filtered := fun _b i j _c => (1/2 : ℚ) *
              (1 - manualMask (fun _ _ _ m => m) 2 2 [] 0 0 i j)
            mask_img := fun _b i j _c => manualMask (fun _ _ _ m => m) 2 2 [] 0 0 i j }) :=
  ⟨rfl, filtered_eq_frame_mul_one_sub_mask (fun _ _ _ m => m) (fun _ _ _ _ => 1/2)
    2 2 1 (1/2) 1 1 0 0 (some (Json.arr [])) 0 0 [] 0 0 0 0 rfl⟩

/-- C3: every entry of the mask built by `_build_circular_mask` lies in
[0, 1]; with `feather = 0` every entry is exactly 0 or exactly 1, and the
1-valued footprint is exactly the union of the inclusive disks of the given
circles. -/
theorem build_circular_mask_bounds_and_footprint
    (gf : GF) (H W : ℕ) (peaks : List (ℤ × ℤ)) (radius : ℤ) (feather : ℕ) (i j : ℕ) :
    (0 ≤ build_circular_mask gf H W peaks radius feather i j ∧
      build_circular_mask gf H W peaks radius feather i j ≤ 1)
    ∧ (feather = 0 →
        (build_circular_mask gf H W peaks radius 0 i j = 0 ∨
          build_circular_mask gf H W peaks radius 0 i j = 1)
        ∧ (build_circular_mask gf H W peaks radius 0 i j = 1 ↔
            ∃ pk ∈ peaks, pixDist2 pk.1 pk.2 i j ≤ radius ^ 2)) := by
  have hzero : build_circular_mask gf H W peaks radius 0 i j =
      if ∃ pk ∈ peaks, pixDist2 pk.1 pk.2 i j ≤ radius ^ 2 then 1 else (0 : ℚ) := by
    rw [build_circular_mask, if_neg (lt_irrefl 0), foldl_paintCircle_fixed]
  refine ⟨?_, fun _ => ⟨?_, ?_⟩⟩
  · rcases Nat.eq_zero_or_pos feather with hf | hf
    · subst hf
      rw [hzero]
      by_cases hmem : ∃ pk ∈ peaks, pixDist2 pk.1 pk.2 i j ≤ radius ^ 2
      · rw [if_pos hmem]
        norm_num
      · rw [if_neg hmem]
        norm_num
    · rw [build_circular_mask, if_pos hf]
      exact clip01_mem _
  · rw [hzero]
    by_cases hmem : ∃ pk ∈ peaks, pixDist2 pk.1 pk.2 i j ≤ radius ^ 2
    · rw [if_pos hmem]
      exact Or.inr rfl
    · rw [if_neg hmem]
      exact Or.inl rfl
  · rw [hzero]
    by_cases hmem : ∃ pk ∈ peaks, pixDist2 pk.1 pk.2 i j ≤ radius ^ 2
    · rw [if_pos hmem]
      exact ⟨fun _ => hmem, fun _ => rfl⟩
    · rw [if_neg hmem]
      exact ⟨fun h0 => absurd h0 (by norm_num), fun hm => absurd hm hmem⟩

theorem build_circular_mask_bounds_and_footprint_witness :
    ((0 ≤ build_circular_mask (fun _ _ _ m => m) 5 5 [(2, 2)] 1 0 2 2 ∧
        build_circular_mask (fun _ _ _ m => m) 5 5 [(2, 2)] 1 0 2 2 ≤ 1)
      ∧ ((0 : ℕ) = 0 →
          (build_circular_mask (fun _ _ _ m => m) 5 5 [(2, 2)] 1 0 2 2 = 0 ∨
            build_circular_mask (fun _ _ _ m => m) 5 5 [(2, 2)] 1 0 2 2 = 1)
          ∧ (build_circular_mask (fun _ _ _ m => m) 5 5 [(2, 2)] 1 0 2 2 = 1 ↔
              ∃ pk ∈ [((2 : ℤ), (2 : ℤ))], pixDist2 pk.1 pk.2 2 2 ≤ 1 ^ 2))) :=
  build_circular_mask_bounds_and_footprint (fun _ _ _ m => m) 5 5 [(2, 2)] 1 0 2 2

/-- C6: in the manual node, when `protect_dc > 0` the pre-feather mask is 1
exactly on the union of the DC-protection disk around `(H//2, W//2)` and the
point circles; in particular with no points the center disk is still
suppressed. -/
theorem manual_premask_dc_union (H W : ℕ) (pts : List ((ℤ × ℤ) × ℤ)) (p : ℕ)
    (i j : ℕ) (hp : 0 < p) :
    manualPreMask H W pts p i j = 1 ↔
      dcDist2 H W i j ≤ (p : ℤ) ^ 2 ∨
        ∃ q ∈ pts, pixDist2 q.1.1 q.1.2 i j ≤ q.2 ^ 2 := by
  rw [manualPreMask]
  simp only [if_pos hp]
  by_cases hdc : dcDist2 H W i j ≤ (p : ℤ) ^ 2
  · rw [if_pos hdc]
    exact ⟨fun _ => Or.inl hdc, fun _ => rfl⟩
  · rw [if_neg hdc, foldl_paintCircle_apply]
    by_cases hmem : ∃ q ∈ pts, pixDist2 q.1.1 q.1.2 i j ≤ q.2 ^ 2
    · rw [if_pos hmem]
      exact ⟨fun _ => Or.inr hmem, fun _ => rfl⟩
    · rw [if_neg hmem]
      constructor
      · intro h0
        exact absurd h0 (by norm_num)
      · rintro (hc | hc)
        · exact absurd hc hdc
        · exact absurd hc hmem

theorem manual_premask_dc_union_witness :
    0 < 1 ∧ (manualPreMask 3 3 [] 1 1 1 = 1 ↔
      dcDist2 3 3 1 1 ≤ ((1 : ℕ) : ℤ) ^ 2 ∨
        ∃ q ∈ ([] : List ((ℤ × ℤ) × ℤ)), pixDist2 q.1.1 q.1.2 1 1 ≤ q.2 ^ 2) :=
  ⟨by decide, manual_premask_dc_union 3 3 [] 1 1 1 (by decide)⟩

/-- C10: in automatic mode, on a frame whose grayscale reduction is
identically zero, every pixel strictly outside the DC-protection disk is
reported as a peak: the neighborhood maximum of each pixel is its own value
and the threshold test degenerates to `0 >= 0`. -/
theorem zero_gray_frame_peaks (frame : Img3) (H W C : ℕ) (t : ℚ) (d p : ℕ)
    (i j : ℕ) (hi : i < H) (hj : j < W)
    (hgray : ∀ a b, a < H → b < W → to_gray C frame a b = 0)
    (hout : (p : ℤ) ^ 2 < dcDist2 H W i j) :
    (i, j) ∈ autoPeaks frame H W C t d p := by
  set g := to_gray C frame with hg
  have hH : 1 ≤ H := Nat.one_le_of_lt (Nat.lt_of_le_of_lt (Nat.zero_le i) hi)
  have hW : 1 ≤ W := Nat.one_le_of_lt (Nat.lt_of_le_of_lt (Nat.zero_le j) hj)
  have hgij : g i j = 0 := hgray i j hi hj
  have hmax0 : grayMax g H W = 0 := by
    obtain ⟨a, b, ha, hb, he⟩ := grayMax_exists g hH hW
    rw [he]
    exact hgray a b ha hb
  have hfle : maximum_filter g H W (windowHalf d) i j ≤ g i j := by
    rw [maximum_filter_le_iff g hi hj]
    intro a b hwa hwb
    rw [hgray a b hwa.1 hwb.1, hgij]
  have heq : g i j = maximum_filter g H W (windowHalf d) i j :=
    le_antisymm (self_le_maximum_filter g hi hj) hfle
  have hlm : local_max g H W t d i j = true := by
    rw [local_max, Bool.and_eq_true, decide_eq_true_eq, decide_eq_true_eq]
    exact ⟨heq, by rw [hmax0, hgij, mul_zero]⟩
  rw [autoPeaks, ← hg, mem_detect_peaks]
  refine ⟨hi, hj, ?_⟩
  rw [peakMask]
  rcases Nat.eq_zero_or_pos p with hp | hp
  · subst hp
    rw [if_neg (lt_irrefl 0)]
    exact hlm
  · rw [if_pos hp, hlm, Bool.true_and, Bool.not_eq_true', decide_eq_false_iff_not]
    exact not_le.mpr hout

theorem zero_gray_frame_peaks_witness :
    (0 < 2 ∧ 1 < 2 ∧ (∀ a b, a < 2 → b < 2 → to_gray 1 (fun _ _ _ => 0) a b = 0) ∧
      ((0 : ℕ) : ℤ) ^ 2 < dcDist2 2 2 0 1) ∧
    (0, 1) ∈ autoPeaks (fun _ _ _ => 0) 2 2 1 (1/2) 1 0 := by
  have hgray : ∀ a b, a < 2 → b < 2 → to_gray 1 (fun _ _ _ => (0 : ℚ)) a b = 0 := by
    intro a b _ _
    rw [to_gray, if_neg (by decide)]
  exact ⟨⟨by decide, by decide, hgray, by decide⟩,
    zero_gray_frame_peaks (fun _ _ _ => 0) 2 2 1 (1/2) 1 0 0 1 (by decide) (by decide)
      hgray (by decide)⟩

/-- C2: a pixel is returned by the automatic detector exactly when it is
in bounds, its value bounds every value in the square window of half-width
`max 1 min_distance` (side `max(3, 2*min_distance+1)`) clipped to the array
— i.e. it equals the neighborhood maximum — its value is at least
`threshold_rel` times the global maximum, and, when `protect_dc > 0`, its
squared distance to `(H//2, W//2)` strictly exceeds `protect_dc` squared;
moreover `grayMax` really is the global maximum of the array. -/
theorem detect_peaks_characterization (g : Img) (H W : ℕ) (t : ℚ) (d p : ℕ)
    (i j : ℕ) (hH : 1 ≤ H) (hW : 1 ≤ W) :
    ((i, j) ∈ detect_peaks g H W t d p ↔
      i < H ∧ j < W ∧
      (∀ i' j', i' < H → j' < W →
        i ≤ i' + max 1 d → i' ≤ i + max 1 d →
        j ≤ j' + max 1 d → j' ≤ j + max 1 d → g i' j' ≤ g i j) ∧
      t * grayMax g H W ≤ g i j ∧
      (0 < p → (p : ℤ) ^ 2 < dcDist2 H W i j))
    ∧ (∀ a b, a < H → b < W → g a b ≤ grayMax g H W)
    ∧ (∃ a b, a < H ∧ b < W ∧ grayMax g H W = g a b) := by
  refine ⟨?_, fun a b ha hb => le_grayMax g ha hb, grayMax_exists g hH hW⟩
  rw [mem_detect_peaks]
  constructor
  · rintro ⟨hi, hj, hpk⟩
    have hsplit : local_max g H W t d i j = true ∧
        (0 < p → ¬ dcDist2 H W i j ≤ (p : ℤ) ^ 2) := by
      rw [peakMask] at hpk
      rcases Nat.eq_zero_or_pos p with hp | hp
      · subst hp
        rw [if_neg (lt_irrefl 0)] at hpk
        exact ⟨hpk, fun hc => absurd hc (lt_irrefl 0)⟩
      · rw [if_pos hp, Bool.and_eq_true, Bool.not_eq_true',
          decide_eq_false_iff_not] at hpk
        exact ⟨hpk.1, fun _ => hpk.2⟩
    obtain ⟨hlm, hdc⟩ := hsplit
    rw [local_max, Bool.and_eq_true, decide_eq_true_eq, decide_eq_true_eq] at hlm
    obtain ⟨heq, hth⟩ := hlm
    refine ⟨hi, hj, ?_, hth, fun hp => not_le.mp (hdc hp)⟩
    intro i' j' hi' hj' h1 h2 h3 h4
    have hfle : maximum_filter g H W (windowHalf d) i j ≤ g i j := le_of_eq heq.symm
    refine (maximum_filter_le_iff g hi hj (g i j)).mp hfle i' j' ?_ ?_
    · rw [windowHalf_eq]
      exact ⟨hi', h1, h2⟩
    · rw [windowHalf_eq]
      exact ⟨hj', h3, h4⟩
  · rintro ⟨hi, hj, hwin, hth, hdc⟩
    have hfle : maximum_filter g H W (windowHalf d) i j ≤ g i j := by
      rw [maximum_filter_le_iff g hi hj]
      intro i' j' hw1 hw2
      rw [windowHalf_eq] at hw1 hw2
      exact hwin i' j' hw1.1 hw2.1 hw1.2.1 hw1.2.2 hw2.2.1 hw2.2.2
    have heq : g i j = maximum_filter g H W (windowHalf d) i j :=
      le_antisymm (self_le_maximum_filter g hi hj) hfle
    have hlm : local_max g H W t d i j = true := by
      rw [local_max, Bool.and_eq_true, decide_eq_true_eq, decide_eq_true_eq]
      exact ⟨heq, hth⟩
    refine ⟨hi, hj, ?_⟩
    rw [peakMask]
    rcases Nat.eq_zero_or_pos p with hp | hp
    · subst hp
      rw [if_neg (lt_irrefl 0)]
      exact hlm
    · rw [if_pos hp, hlm, Bool.true_and, Bool.not_eq_true',
        decide_eq_false_iff_not]
      exact not_le.mpr (hdc hp)

theorem detect_peaks_characterization_witness :
    (1 ≤ 2 ∧ 1 ≤ 2) ∧
    (((0, 1) ∈ detect_peaks (fun _ _ => 0) 2 2 (1/2) 1 0 ↔
      0 < 2 ∧ 1 < 2 ∧
      (∀ i' j', i' < 2 → j' < 2 →
        0 ≤ i' + max 1 1 → i' ≤ 0 + max 1 1 →
        1 ≤ j' + max 1 1 → j' ≤ 1 + max 1 1 → (0 : ℚ) ≤ 0) ∧
      (1/2 : ℚ) * grayMax (fun _ _ => 0) 2 2 ≤ 0 ∧
      (0 < 0 → ((0 : ℕ) : ℤ) ^ 2 < dcDist2 2 2 0 1))
    ∧ (∀ a b, a < 2 → b < 2 → (0 : ℚ) ≤ grayMax (fun _ _ => 0) 2 2)
    ∧ (∃ a b, a < 2 ∧ b < 2 ∧ grayMax (fun _ _ => 0) 2 2 = 0)) :=
  ⟨⟨by decide, by decide⟩,
    detect_peaks_characterization (fun _ _ => 0) 2 2 (1/2) 1 0 0 1
      (by decide) (by decide)⟩

/-- C4: the peaks detected on a frame by the automatic pipeline, serialized
to JSON objects with the configured notch radius and supplied as the manual
pipeline's point input with the same radius, feather 0 and protect_dc 0,
parse without error and rebuild a mask identical to the automatic pipeline's
own (feather-0) mask for that frame. -/
theorem auto_manual_roundtrip_mask (gf gf2 : GF) (frame : Img3) (H W C : ℕ)
    (t : ℚ) (d rad p : ℕ) :
    ∃ pts, manualPoints (some (serializePeaks (autoPeaks frame H W C t d p) rad))
        = Except.ok pts
      ∧ ∀ i j, manualMask gf2 H W pts 0 0 i j
          = autoMask gf frame H W C t d rad p 0 i j := by
  refine ⟨_, manualPoints_serialized (autoPeaks frame H W C t d p) rad, ?_⟩
  intro i j
  rw [manualMask, if_neg (lt_irrefl 0), manualPreMask, if_neg (lt_irrefl 0),
    foldl_paintCircle_apply]
  rw [autoMask, build_circular_mask, if_neg (lt_irrefl 0), foldl_paintCircle_fixed]
  have hiff : (∃ q ∈ (autoPeaks frame H W C t d p).map
        (fun q => (((q.1 : ℤ), (q.2 : ℤ)), (rad : ℤ))),
        pixDist2 q.1.1 q.1.2 i j ≤ q.2 ^ 2) ↔
      (∃ pk ∈ (autoPeaks frame H W C t d p).map (fun q => ((q.1 : ℤ), (q.2 : ℤ))),
        pixDist2 pk.1 pk.2 i j ≤ (rad : ℤ) ^ 2) := by
    constructor
    · rintro ⟨q, hq, hd⟩
      obtain ⟨pk, hpk, he⟩ := List.mem_map.mp hq
      refine ⟨((pk.1 : ℤ), (pk.2 : ℤ)), List.mem_map.mpr ⟨pk, hpk, rfl⟩, ?_⟩
      rw [← he] at hd
      exact hd
    · rintro ⟨q, hq, hd⟩
      obtain ⟨pk, hpk, he⟩ := List.mem_map.mp hq
      refine ⟨(((pk.1 : ℤ), (pk.2 : ℤ)), (rad : ℤ)), List.mem_map.mpr ⟨pk, hpk, rfl⟩, ?_⟩
      rw [← he] at hd
      exact hd
  simp only [hiff]

/-- C5 (amended): when the point input fails to parse or parses to a
non-array JSON value, the manual node behaves exactly as with the empty
array `[]` and returns successfully; the graceful fallback does not extend
to a parsed array with malformed elements (see the counterexample). -/
theorem graceful_nonarray_empty (gf : GF) (frames : ℕ → Img3) (H W : ℕ)
    (parsed : Option Json) (fe p : ℕ)
    (h : parsed = none ∨ ∃ v, parsed = some v ∧ ∀ l, v ≠ Json.arr l) :
    manualNode gf frames H W parsed fe p
        = manualNode gf frames H W (some (Json.arr [])) fe p
      ∧ ∃ out, manualNode gf frames H W parsed fe p = Except.ok out := by
  have hnil : parsePoints parsed = [] := by
    rcases h with h | ⟨v, hv, hna⟩
    · rw [h]
      rfl
    · rw [hv]
      cases v with
      | arr l => exact absurd rfl (hna l)
      | null => rfl
      | bool b => rfl
      | num q => rfl
      | str sv => rfl
      | obj o => rfl
  have hpts : manualPoints parsed = Except.ok [] := by
    rw [manualPoints, hnil]
    rfl
  rw [manualNode, hpts]
  exact ⟨rfl, ⟨_, rfl⟩⟩

theorem graceful_nonarray_empty_witness :
    ((none : Option Json) = none ∨
      ∃ v, (none : Option Json) = some v ∧ ∀ l, v ≠ Json.arr l) ∧
    (manualNode (fun _ _ _ m => m) (fun _ _ _ _ => 0) 1 1 none 0 0
        = manualNode (fun _ _ _ m => m) (fun _ _ _ _ => 0) 1 1 (some (Json.arr [])) 0 0
      ∧ ∃ out, manualNode (fun _ _ _ m => m) (fun _ _ _ _ => 0) 1 1 none 0 0
          = Except.ok out) :=
  ⟨Or.inl rfl,
    graceful_nonarray_empty (fun _ _ _ m => m) (fun _ _ _ _ => 0) 1 1 none 0 0 (Or.inl rfl)⟩

/-- C5 counterexample: a parsed JSON array whose element is not an object
(here `[null]`) makes the manual node raise (model: `Except.error`), unlike
the empty point list, which succeeds — so "every malformed point list is
treated as empty and never raises" is false on the code. -/
theorem malformed_points_raise :
    manualNode (fun _ _ _ m => m) (fun _ _ _ _ => 0) 1 1
        (some (Json.arr [Json.null])) 0 0 = Except.error ()
    ∧ ∃ out, manualNode (fun _ _ _ m => m) (fun _ _ _ _ => 0) 1 1
        (some (Json.arr [])) 0 0 = Except.ok out :=
  ⟨rfl, ⟨_, rfl⟩⟩

/-- C7 (amended): the `peak_positions` output is a JSON array holding one
object per peak detected in the FIRST frame of the batch, the k-th object
being `{"x": col, "y": row, "r": notch_radius}` for the k-th such peak;
peaks of later frames are not serialized. -/
theorem peak_positions_serializes_first_frame (gf : GF) (frames : ℕ → Img3)
    (H W C : ℕ) (t : ℚ) (d rad p fe : ℕ) :
    ∃ l, (autoNode gf frames H W C t d rad p fe).peak_positions = Json.arr l
      ∧ l.length = (autoPeaks (frames 0) H W C t d p).length
      ∧ ∀ k : ℕ, l[k]? = ((autoPeaks (frames 0) H W C t d p)[k]?).map fun (q : ℕ × ℕ) =>
          Json.obj [("x", Json.num (q.2 : ℚ)), ("y", Json.num (q.1 : ℚ)),
            ("r", Json.num (rad : ℚ))] := by
  refine ⟨(autoPeaks (frames 0) H W C t d p).map fun (q : ℕ × ℕ) =>
    Json.obj [("x", Json.num (q.2 : ℚ)), ("y", Json.num (q.1 : ℚ)),
      ("r", Json.num (rad : ℚ))], rfl, List.length_map _ _, ?_⟩
  intro k
  exact List.getElem?_map _ _ k

set_option maxHeartbeats 2000000 in
/-- C7 counterexample: a 2-frame batch in which frame 0 has no detected
peaks (its only candidate sits inside the DC disk) while frame 1 has the
detected peak (0, 0) — the `peak_positions` output is the empty JSON array,
so it does not contain one object per detected peak of the batch. -/
theorem peak_positions_misses_later_frames :
    (autoNode (fun _ _ _ m => m)
        (fun b => if b = 0 then (fun i j _ => if i = 1 ∧ j = 1 then 1 else 0)
          else (fun i j _ => if i = 0 ∧ j = 0 then 1 else 0))
        3 3 1 (1/2) 1 1 1 0).peak_positions = Json.arr []
    ∧ autoPeaks (fun i j _ => if i = 0 ∧ j = 0 then 1 else 0) 3 3 1 (1/2) 1 1
        = [(0, 0)] := by
  constructor
  · have h0 : autoPeaks (fun i j _ => if i = 1 ∧ j = 1 then (1 : ℚ) else 0)
        3 3 1 (1/2) 1 1 = [] := by
      norm_num [autoPeaks, detect_peaks, show List.range 3 = [0,1,2] from rfl,
        peakMask, local_max, maximum_filter, grayMax, maxTo, windowHalf, to_gray,
        dcDist2, pixDist2, max_def]
    have he : (autoNode (fun _ _ _ m => m)
        (fun b => if b = 0 then (fun i j _ => if i = 1 ∧ j = 1 then 1 else 0)
          else (fun i j _ => if i = 0 ∧ j = 0 then 1 else 0))
        3 3 1 (1/2) 1 1 1 0).peak_positions
        = serializePeaks (autoPeaks (fun i j _ => if i = 1 ∧ j = 1 then (1 : ℚ) else 0)
            3 3 1 (1/2) 1 1) 1 := rfl
    rw [he, h0]
    rfl
  · norm_num [autoPeaks, detect_peaks, show List.range 3 = [0,1,2] from rfl,
      peakMask, local_max, maximum_filter, grayMax, maxTo, windowHalf, to_gray,
      dcDist2, pixDist2, max_def]

/-- C8 (amended): in the preview annotator, when `dc_r > 0`, the frame has
at least 3 channels and the pixel lies on the DC ring but on no peak ring
(peak rings are drawn afterwards and overwrite), the pixel's first three
channels are the fixed light blue (0.2, 0.5, 1.0). -/
theorem dc_ring_tinted_light_blue (frame : Img3) (C : ℕ) (peaks : List (ℕ × ℕ))
    (radius dc_r H W i j : ℕ)
    (hdc : 0 < dc_r) (hC : 3 ≤ C)
    (hring : inRingB ((H / 2 : ℕ) : ℤ) ((W / 2 : ℕ) : ℤ) (((dc_r : ℤ) + 1) ^ 2)
        (((dc_r - 1 : ℕ) : ℤ) ^ 2) i j = true)
    (hclear : ∀ pk ∈ peaks, inRingB (pk.1 : ℤ) (pk.2 : ℤ) (((radius : ℤ) + 2) ^ 2)
        (((radius - 1 : ℕ) : ℤ) ^ 2) i j = false) :
    annotate_preview frame C peaks radius dc_r H W i j 0 = 1/5
    ∧ annotate_preview frame C peaks radius dc_r H W i j 1 = 1/2
    ∧ annotate_preview frame C peaks radius dc_r H W i j 2 = 1 := by
  have hval : ∀ ch, annotate_preview frame C peaks radius dc_r H W i j ch =
      if ch = 0 then (1/5 : ℚ) else if ch = 1 then 1/2 else if ch = 2 then 1
        else clip01 (frame i j ch) := by
    intro ch
    simp only [annotate_preview]
    rw [foldl_paintPeakRing_clear C radius peaks _ hclear ch, if_pos ⟨hdc, hC⟩,
      if_pos hring]
  refine ⟨?_, ?_, ?_⟩
  · rw [hval 0]
    norm_num
  · rw [hval 1]
    norm_num
  · rw [hval 2]
    norm_num

theorem dc_ring_tinted_light_blue_witness :
    (0 < 1 ∧ 3 ≤ 3
      ∧ inRingB ((5 / 2 : ℕ) : ℤ) ((5 / 2 : ℕ) : ℤ) ((((1 : ℕ) : ℤ) + 1) ^ 2)
          ((((1 : ℕ) - 1 : ℕ) : ℤ) ^ 2) 2 3 = true
      ∧ ∀ pk ∈ ([] : List (ℕ × ℕ)),
          inRingB (pk.1 : ℤ) (pk.2 : ℤ) ((((1 : ℕ) : ℤ) + 2) ^ 2)
            ((((1 : ℕ) - 1 : ℕ) : ℤ) ^ 2) 2 3 = false) ∧
    (annotate_preview (fun _ _ _ => 0) 3 [] 1 1 5 5 2 3 0 = 1/5
      ∧ annotate_preview (fun _ _ _ => 0) 3 [] 1 1 5 5 2 3 1 = 1/2
      ∧ annotate_preview (fun _ _ _ => 0) 3 [] 1 1 5 5 2 3 2 = 1) :=
  ⟨⟨by decide, by decide, by decide, by simp⟩,
    dc_ring_tinted_light_blue (fun _ _ _ => 0) 3 [] 1 1 5 5 2 3
      (by decide) (by decide) (by decide) (by simp)⟩

/-- C8 counterexample: with a 9-by-9 3-channel frame, `dc_r = 2` and one
peak at (4, 6) of radius 1, the pixel (3, 6) lies on the DC ring yet its red
channel in the preview is 1 (yellow peak ring, drawn later), not 0.2; and on
a single-channel frame a DC-ring pixel receives no tint at all — so "for
every frame every DC-ring pixel is tinted light blue" is false on the code. -/
theorem dc_ring_overwritten_by_peak_ring :
    (inRingB ((9 / 2 : ℕ) : ℤ) ((9 / 2 : ℕ) : ℤ) ((((2 : ℕ) : ℤ) + 1) ^ 2)
        ((((2 : ℕ) - 1 : ℕ) : ℤ) ^ 2) 3 6 = true
      ∧ annotate_preview (fun _ _ _ => 0) 3 [(4, 6)] 1 2 9 9 3 6 0 ≠ 1/5)
    ∧ (inRingB ((5 / 2 : ℕ) : ℤ) ((5 / 2 : ℕ) : ℤ) ((((1 : ℕ) : ℤ) + 1) ^ 2)
        ((((1 : ℕ) - 1 : ℕ) : ℤ) ^ 2) 2 3 = true
      ∧ annotate_preview (fun _ _ _ => 0) 1 [] 1 1 5 5 2 3 0 ≠ 1/5) := by
  refine ⟨⟨by decide, ?_⟩, ⟨by decide, ?_⟩⟩
  · have h : annotate_preview (fun _ _ _ => 0) 3 [(4, 6)] 1 2 9 9 3 6 0 = 1 := by
      simp only [annotate_preview, List.foldl_cons, List.foldl_nil, paintPeakRing]
      norm_num [inRingB, pixDist2, clip01]
    rw [h]
    norm_num
  · have h : annotate_preview (fun _ _ _ => 0) 1 [] 1 1 5 5 2 3 0 = 0 := by
      simp only [annotate_preview, List.foldl_nil]
      norm_num [clip01]
    rw [h]
    norm_num

/-- C9 (amended): the preview export encodes each sample of the first frame
to the 8-bit value obtained by TRUNCATING `clip(v, 0, 1) * 255` toward zero
(the floor, since the clipped value is nonnegative) — not by rounding — the
encoded byte never exceeds 255 (no uint8 wrap-around), and a single-channel
frame yields three identical channels, each the encoding of the sole input
channel. -/
theorem save_temp_image_encoding (frame : Img3) (C : ℕ) (i j ch : ℕ)
    ( _hC : C = 1 ∨ 3 ≤ C) ( _hch : ch < 3) :
    save_temp_image frame C i j ch =
        (⌊clip01 (frame i j (if C = 1 then 0 else ch)) * 255⌋).toNat
      ∧ save_temp_image frame C i j ch ≤ 255 := by
  by_cases h1 : C = 1
  · simp only [save_temp_image, if_pos h1]
    exact u8sample_eq_floor (frame i j 0)
  · simp only [save_temp_image, if_neg h1]
    exact u8sample_eq_floor (frame i j ch)

theorem save_temp_image_encoding_witness :
    (((1 : ℕ) = 1 ∨ 3 ≤ 1) ∧ 0 < 3) ∧
    (save_temp_image (fun _ _ _ => 1/2) 1 0 0 0 =
        (⌊clip01 ((1 : ℚ)/2) * 255⌋).toNat
      ∧ save_temp_image (fun _ _ _ => 1/2) 1 0 0 0 ≤ 255) :=
  ⟨⟨Or.inl rfl, by decide⟩,
    save_temp_image_encoding (fun _ _ _ => 1/2) 1 0 0 0 (Or.inl rfl) (by decide)⟩

/-- C9 counterexample: at the sample 1/2 the code encodes
`floor(0.5 * 255) = 127` while the spec's clip-then-round encoding gives
`round(127.5) = 128`. -/
theorem preview_encoding_truncates :
    save_temp_image (fun _ _ _ => 1/2) 1 0 0 0 = 127
    ∧ specRoundSample (1/2) = 128 := by
  have hc : clip01 (1/2 : ℚ) = 1/2 := by
    rw [clip01, max_def, min_def]
    norm_num
  constructor
  · show u8sample (1/2 : ℚ) = 127
    rw [u8sample, hc]
    norm_num
    decide
  · rw [specRoundSample, hc]
    norm_num

end NotchFilter
